import Mathlib

/-!
Verification of the AIPoker repository (hand evaluator, betting engine,
decision boundary) against its natural-language specification.

The Python sources are embedded shallowly:
* `src/hand_evaluator.py` — pure functions over lists of `(rank, suit)` pairs;
  Python `Counter` key iteration (insertion order = first-occurrence order)
  is modelled by `keys`; fallible operations (`[0]` indexing, `max` of a
  possibly-empty list) return `Option`.
* `src/game.py`, `src/player.py` — explicit state passing; the random
  amounts from `random.randint` and the external AI decisions are supplied
  by oracles.
* `src/ollama_integration.py` — the regex keyword extraction is modelled
  over `List Char`; transport errors are oracle-supplied `Option` attempts.
-/

namespace AIPoker

/-- A card rank, 2..14 (11 = Jack, 12 = Queen, 13 = King, 14 = Ace), per `src/deck.py`. -/
abbrev Rank := Nat

/-- A card suit; the Python code uses the strings below. -/
abbrev Suit := String

/-- A card is a `(rank, suit)` tuple, per `src/deck.py`. -/
abbrev Card := Rank × Suit

/-- The four suits of `Deck.__init__` in `src/deck.py`. -/
def suitUniverse : List Suit := ["hearts", "diamonds", "clubs", "spades"]

/-- The distinct values of a list in first-occurrence order.  This models the
key iteration order of a Python `collections.Counter` built from that list
(dicts preserve insertion order, and `Counter(xs)` inserts keys in order of
first occurrence in `xs`). -/
def keys {α : Type} [DecidableEq α] : List α → List α
  | [] => []
  | a :: l => a :: (keys l).filter (fun x => x ≠ a)

/-- `k in counter.values()` for the counter of `l`: some element of `l` has
multiplicity exactly `k`.  Models e.g. `4 in rank_counts.values()`. -/
def hasCountValue (l : List Nat) (k : Nat) : Bool :=
  (keys l).any (fun r => l.count r == k)

/-- `sorted(xs)` (ascending) from Python, via insertion sort. -/
def sortAsc (l : List Nat) : List Nat := l.insertionSort (· ≤ ·)

/-- `sorted(xs, reverse=True)` (descending) from Python, via insertion sort. -/
def sortDesc (l : List Nat) : List Nat := l.insertionSort (fun a b => b ≤ a)

/-- `sorted(set(ranks))` of `is_straight` / `get_best_straight`
(`src/hand_evaluator.py` lines 139 and 208). -/
def uniqueSorted (ranks : List Nat) : List Nat := sortAsc (keys ranks)

/-- One window test of the straight scan:
`unique_ranks[i:i+5] == list(range(unique_ranks[i], unique_ranks[i]+5))`
(`src/hand_evaluator.py` lines 143 and 210), with `a` the window head and
`rest` the tail of the list after it. -/
def straightWindowHit (a : Nat) (rest : List Nat) : Bool :=
  rest.take 4 == [a + 1, a + 2, a + 3, a + 4]

/-- Index of the first window `i` (in `for i in range(len(unique_ranks) - 4)`)
whose 5 entries are consecutive; `none` when no window matches.  Windows that
would run past the end of the list cannot match, so scanning every suffix is
equivalent to Python's bounded range. -/
def findRunIdx : Nat → List Nat → Option Nat
  | _, [] => none
  | i, a :: rest =>
    if straightWindowHit a rest then some i else findRunIdx (i + 1) rest

/-- `set([14, 2, 3, 4, 5]).issubset(unique_ranks)` — the wheel test of
`src/hand_evaluator.py` lines 146 and 212. -/
def wheelHit (u : List Nat) : Bool :=
  u.contains 14 && u.contains 2 && u.contains 3 && u.contains 4 && u.contains 5

/-- `is_straight(ranks)` of `src/hand_evaluator.py` lines 129-148. -/
def is_straight (ranks : List Nat) : Bool :=
  let u := uniqueSorted ranks
  if u.length < 5 then false
  else
    match findRunIdx 0 u with
    | some _ => true
    | none => wheelHit u

/-- The Python slice `unique_ranks[i+4:i-1:-1]` of `src/hand_evaluator.py`
line 211.  For `i = 0` the stop index `-1` denotes the LAST position of the
list, so the slice is empty; for `i ≥ 1` it is the 5 window entries in
descending order. -/
def runSlice (u : List Nat) (i : Nat) : List Nat :=
  if i = 0 then [] else ((u.drop i).take 5).reverse

/-- `get_best_straight(ranks)` of `src/hand_evaluator.py` lines 198-214. -/
def get_best_straight (ranks : List Nat) : List Nat :=
  let u := uniqueSorted ranks
  match findRunIdx 0 u with
  | some i => runSlice u i
  | none => if wheelHit u then [5, 4, 3, 2, 14] else []

/-- `is_straight_flush(all_cards)` of `src/hand_evaluator.py` lines 72-91:
some suit has at least 5 cards and the ranks of that suit form a straight. -/
def is_straight_flush (cards : List Card) : Bool :=
  let suits := cards.map Prod.snd
  (keys suits).any (fun s =>
    decide (5 ≤ suits.count s) &&
    is_straight ((cards.filter (fun c => c.snd == s)).map Prod.fst))

/-- `is_four_of_a_kind(rank_counts)` (`src/hand_evaluator.py` line 103). -/
def is_four_of_a_kind (ranks : List Nat) : Bool := hasCountValue ranks 4

/-- `is_full_house(rank_counts)` (`src/hand_evaluator.py` line 115):
`3 in rank_counts.values() and 2 in rank_counts.values()` — both counts
exact. -/
def is_full_house (ranks : List Nat) : Bool :=
  hasCountValue ranks 3 && hasCountValue ranks 2

/-- `is_flush(suit_counts)` (`src/hand_evaluator.py` line 127). -/
def is_flush (suits : List Suit) : Bool :=
  (keys suits).any (fun s => decide (5 ≤ suits.count s))

/-- `is_three_of_a_kind(rank_counts)` (`src/hand_evaluator.py` line 160). -/
def is_three_of_a_kind (ranks : List Nat) : Bool := hasCountValue ranks 3

/-- `is_two_pair(rank_counts)` (`src/hand_evaluator.py` line 172):
`list(rank_counts.values()).count(2) >= 2` — at least two distinct ranks of
multiplicity exactly 2. -/
def is_two_pair (ranks : List Nat) : Bool :=
  2 ≤ ((keys ranks).filter (fun r => ranks.count r == 2)).length

/-- `is_one_pair(rank_counts)` (`src/hand_evaluator.py` line 184). -/
def is_one_pair (ranks : List Nat) : Bool := hasCountValue ranks 2

/-- `get_high_card(ranks)` (`src/hand_evaluator.py` line 196). -/
def get_high_card (ranks : List Nat) : List Nat := sortDesc ranks

/-- `[rank for rank, count in rank_counts.items() if p][0]` — the first
Counter key satisfying `p`, `none` when the Python code would raise
`IndexError`. -/
def firstKeyWith (ranks : List Nat) (p : Nat → Bool) : Option Nat :=
  ((keys ranks).filter p).head?

/-- `get_best_four_of_a_kind(rank_counts)` (`src/hand_evaluator.py`
lines 216-228); the kicker is `max` over the OTHER distinct ranks. -/
def get_best_four_of_a_kind (ranks : List Nat) : Option (List Nat) :=
  match firstKeyWith ranks (fun r => ranks.count r == 4) with
  | none => none
  | some four =>
    match ((keys ranks).filter (fun r => r ≠ four)).max? with
    | none => none
    | some kicker => some [four, kicker]

/-- `get_best_full_house(rank_counts)` (`src/hand_evaluator.py`
lines 230-242): the FIRST-encountered rank of count exactly 3 and the
FIRST-encountered rank of count exactly 2, in Counter insertion order. -/
def get_best_full_house (ranks : List Nat) : Option (List Nat) :=
  match firstKeyWith ranks (fun r => ranks.count r == 3) with
  | none => none
  | some three =>
    match firstKeyWith ranks (fun r => ranks.count r == 2) with
    | none => none
    | some pair => some [three, pair]

/-- `get_best_flush(all_cards)` (`src/hand_evaluator.py` lines 244-258). -/
def get_best_flush (cards : List Card) : Option (List Nat) :=
  let suits := cards.map Prod.snd
  match ((keys suits).filter (fun s => decide (5 ≤ suits.count s))).head? with
  | none => none
  | some fsuit =>
    some ((sortDesc ((cards.filter (fun c => c.snd == fsuit)).map Prod.fst)).take 5)

/-- `get_best_three_of_a_kind(rank_counts, all_ranks)` (`src/hand_evaluator.py`
lines 260-273). -/
def get_best_three_of_a_kind (ranks : List Nat) : Option (List Nat) :=
  match firstKeyWith ranks (fun r => ranks.count r == 3) with
  | none => none
  | some three => some (three :: (sortDesc (ranks.filter (fun r => r ≠ three))).take 2)

/-- The `pairs` list of `get_best_two_pair` (`src/hand_evaluator.py`
line 286): the two highest distinct ranks of count exactly 2. -/
def twoPairPairs (ranks : List Nat) : List Nat :=
  (sortDesc ((keys ranks).filter (fun r => ranks.count r == 2))).take 2

/-- `get_best_two_pair(rank_counts, all_ranks)` (`src/hand_evaluator.py`
lines 275-288). -/
def get_best_two_pair (ranks : List Nat) : Option (List Nat) :=
  match (ranks.filter (fun r => !((twoPairPairs ranks).contains r))).max? with
  | none => none
  | some kicker => some (twoPairPairs ranks ++ [kicker])

/-- `get_best_one_pair(rank_counts, all_ranks)` (`src/hand_evaluator.py`
lines 290-303). -/
def get_best_one_pair (ranks : List Nat) : Option (List Nat) :=
  match firstKeyWith ranks (fun r => ranks.count r == 2) with
  | none => none
  | some pair => some (pair :: (sortDesc (ranks.filter (fun r => r ≠ pair))).take 3)

/-- The body of `evaluate_hand` (`src/hand_evaluator.py` lines 31-69) applied
to the combined card list `hand + community_cards`.  `none` models the Python
error branches (`IndexError` from `[0]`, `ValueError` from `max([])`). -/
def evaluateCards (cards : List Card) : Option (Nat × List Nat) :=
  let ranks := cards.map Prod.fst
  let suits := cards.map Prod.snd
  if is_straight_flush cards then some (9, get_best_straight ranks)
  else if is_four_of_a_kind ranks then
    (get_best_four_of_a_kind ranks).map (fun t => (8, t))
  else if is_full_house ranks then
    (get_best_full_house ranks).map (fun t => (7, t))
  else if is_flush suits then
    (get_best_flush cards).map (fun t => (6, t))
  else if is_straight ranks then some (5, get_best_straight ranks)
  else if is_three_of_a_kind ranks then
    (get_best_three_of_a_kind ranks).map (fun t => (4, t))
  else if is_two_pair ranks then
    (get_best_two_pair ranks).map (fun t => (3, t))
  else if is_one_pair ranks then
    (get_best_one_pair ranks).map (fun t => (2, t))
  else some (1, get_high_card ranks)

/-- `evaluate_hand(hand, community_cards)` (`src/hand_evaluator.py`
lines 31-69): the two inputs are concatenated immediately. -/
def evaluate_hand (hand community : List Card) : Option (Nat × List Nat) :=
  evaluateCards (hand ++ community)

/-- Python list `<` (used through `best_ranks > best_hand_value[1]` in
`determine_winner`, `src/game.py` line 126): lexicographic, a strict prefix
is smaller. -/
def pyListLt : List Nat → List Nat → Bool
  | [], [] => false
  | [], _ :: _ => true
  | _ :: _, [] => false
  | a :: as, b :: bs => if a < b then true else if b < a then false else pyListLt as bs

/-- Python list `>`: `a > b` iff `b < a`. -/
def pyListGt (a b : List Nat) : Bool := pyListLt b a

/-! ### Player and betting engine (`src/player.py`, `src/game.py`) -/

/-- The mutable per-player record of `AIPlayer.__init__` (`src/player.py`). -/
structure Player where
  chips : Nat
  hand : List Card
  current_bet : Nat
  is_active : Bool
deriving Repr, DecidableEq

/-- The decision strings the game understands; `other` stands for any other
string returned by the decision boundary (treated as an invalid response). -/
inductive Decision
  | fold | check | bet | raiseTo | other
deriving Repr, DecidableEq

/-- `AIPlayer.calculate_bet_amount` (`src/player.py` lines 69-85); `r` feeds
`random.randint(bet_min, bet_max)`, modelled as `bet_min + r % span`. -/
def calculate_bet_amount (chips cb r : Nat) : Nat :=
  let betMin := max cb 50
  let betMax := min chips (cb + 200)
  if betMax < betMin then chips else betMin + r % (betMax - betMin + 1)

/-- `AIPlayer.calculate_raise_amount` (`src/player.py` lines 87-105). -/
def calculate_raise_amount (chips cb r : Nat) : Nat :=
  if chips ≤ cb * 2 then chips
  else
    let raiseMin := cb * 2
    let raiseMax := min chips (cb * 3 + 100)
    if raiseMax < raiseMin then chips else raiseMin + r % (raiseMax - raiseMin + 1)

/-- The state effect of `AIPlayer.make_decision` (`src/player.py` lines 29-67)
for a decision `d` (the sanitized string from the AI boundary) and random
seed `r`.  `fold` and any invalid string set `is_active := false` and leave
`current_bet` UNCHANGED; `check` changes nothing; `bet`/`raiseTo` deduct the
computed amount from `chips` and overwrite `current_bet` with it. -/
def make_decision (p : Player) (d : Decision) (r cb : Nat) : Player :=
  if !p.is_active then p
  else
    match d with
    | .fold => { p with is_active := false }
    | .check => p
    | .bet =>
      let amt := calculate_bet_amount p.chips cb r
      { p with chips := p.chips - amt, current_bet := amt }
    | .raiseTo =>
      let amt := calculate_raise_amount p.chips cb r
      { p with chips := p.chips - amt, current_bet := amt }
    | .other => { p with is_active := false }

/-- The player loop of `PokerGame.betting_round` (`src/game.py` lines 82-97).
`decide i` supplies the boundary decision and random seed of the `i`-th
player; `cb` is the running `current_bet` local; after each ACTIVE player's
decision the code executes `self.pot += player.current_bet` — the player's
post-decision `current_bet` field, NOT the newly committed amount. -/
def betting_pass (decide : Nat → Decision × Nat) :
    Nat → Nat → Nat → List Player → List Player × Nat
  | _, _, pot, [] => ([], pot)
  | i, cb, pot, p :: ps =>
    if p.is_active then
      let dr := decide i
      let q := make_decision p dr.1 dr.2 cb
      let cb2 := max cb q.current_bet
      let r := betting_pass decide (i + 1) cb2 (pot + q.current_bet) ps
      (q :: r.1, r.2)
    else
      let r := betting_pass decide (i + 1) cb pot ps
      (p :: r.1, r.2)

/-- `PokerGame.betting_round` (`src/game.py` lines 82-97): the street-local
`current_bet` starts at 0, `pot` carries over from the game state. -/
def betting_round (decide : Nat → Decision × Nat) (players : List Player)
    (pot : Nat) : List Player × Nat :=
  betting_pass decide 0 0 pot players

/-- `AIPlayer.reset_for_next_round` (`src/player.py` lines 107-113). -/
def reset_for_next_round (p : Player) : Player :=
  { p with hand := [], current_bet := 0, is_active := true }

/-- The game-level state of `PokerGame` (`src/game.py`). -/
structure GameState where
  players : List Player
  deck : List Card
  community : List Card
  pot : Nat
  dealer_position : Nat
  num_players : Nat
deriving Repr, DecidableEq

/-- `self.cards.pop()` (`src/deck.py`): removes and returns the LAST card. -/
def popCard (d : List Card) : Option (Card × List Card) :=
  match d.getLast? with
  | some c => some (c, d.dropLast)
  | none => none

/-- `Deck.deal_hand()` (`src/deck.py`): two pops. -/
def deal_hand (d : List Card) : Option (List Card × List Card) :=
  match popCard d with
  | none => none
  | some (c1, d1) =>
    match popCard d1 with
    | none => none
    | some (c2, d2) => some ([c1, c2], d2)

/-- The dealing loop of `play_pre_flop` (`src/game.py` lines 35-38): every
player — active or not — receives a fresh 2-card hand, in table order. -/
def deal_players : List Player → List Card → Option (List Player × List Card)
  | [], d => some ([], d)
  | p :: ps, d =>
    match deal_hand d with
    | none => none
    | some (h, d1) =>
      match deal_players ps d1 with
      | none => none
      | some (ps2, d2) => some ({ p with hand := h } :: ps2, d2)

/-- `PokerGame.play_pre_flop` (`src/game.py` lines 22-45).  `fresh` is the
freshly shuffled 52-card deck produced by `deck.reset()`; `decide` supplies
the betting decisions.  The method clears the community cards and pot,
rotates the dealer, deals 2 hole cards to EVERY player and runs one betting
pass — it never touches `current_bet`, `is_active` or `hand`-reset of the
players beyond dealing. -/
def play_pre_flop (fresh : List Card) (decide : Nat → Decision × Nat)
    (st : GameState) : Option GameState :=
  match deal_players st.players fresh with
  | none => none
  | some (dealt, deck1) =>
    let bet := betting_round decide dealt 0
    some { players := bet.1, deck := deck1, community := [], pot := bet.2,
           dealer_position := (st.dealer_position + 1) % st.num_players,
           num_players := st.num_players }

/-- `PokerGUI.reset_game_for_next_round` (`src/gui.py` lines 150-160): the
separate step that DOES reset every player via `reset_for_next_round`,
clears the community cards and pot and resets the deck. -/
def reset_game_for_next_round (fresh : List Card) (st : GameState) : GameState :=
  { st with deck := fresh, players := st.players.map reset_for_next_round,
            community := [], pot := 0 }

/-- The comparison fold of `PokerGame.determine_winner` (`src/game.py`
lines 113-129), over the active players `(index, player)` in table order.
`best` holds `(index, hand_value, best_ranks)`; each iteration calls
`evaluate_hand` once (modelled by the `Option` bind). -/
def winnerFold (community : List Card) :
    List (Nat × Player) → Option (Nat × Nat × List Nat) → Option (Option Nat)
  | [], best => some (best.map Prod.fst)
  | (i, p) :: rest, best =>
    match evaluate_hand p.hand community with
    | none => none
    | some ev =>
      match best with
      | none => winnerFold community rest (some (i, ev.1, ev.2))
      | some (bi, bhv, bbr) =>
        if bhv < ev.1 then winnerFold community rest (some (i, ev.1, ev.2))
        else if ev.1 == bhv && pyListGt ev.2 bbr then
          winnerFold community rest (some (i, ev.1, ev.2))
        else winnerFold community rest (some (bi, bhv, bbr))

/-- `PokerGame.determine_winner` (`src/game.py` lines 99-136).  Returns
`(winner index or none, number of evaluate_hand invocations)`; the Python
code evaluates ONE hand per active player, so on a successful run the count
is the number of active players.  The outer `none` models a Python exception
escaping from `evaluate_hand`. -/
def determine_winner (players : List Player) (community : List Card) :
    Option (Option Nat × Nat) :=
  let actives := (players.enum).filter (fun ip => ip.2.is_active)
  if actives.isEmpty then some (none, 0)
  else (winnerFold community actives none).map (fun w => (w, actives.length))

/-! ### Decision boundary (`src/ollama_integration.py`) -/

/-- Python regex `\w` over the ASCII texts involved: letter, digit or
underscore. -/
def isWordChar (c : Char) : Bool := c.isAlpha || c.isDigit || c == '_'

/-- The four action keywords of the alternation
`\b(fold|check|bet|raise)\b`, in source order. -/
def actionKeywords : List (List Char) :=
  ["fold".toList, "check".toList, "bet".toList, "raise".toList]

/-- Does keyword `k` occur in `s` starting at position `i`, with `\b` word
boundaries on both sides? -/
def keywordAt (s : List Char) (i : Nat) (k : List Char) : Bool :=
  ((s.drop i).take k.length == k) &&
  (i == 0 || !isWordChar (s.getD (i - 1) ' ')) &&
  (s.length ≤ i + k.length || !isWordChar (s.getD (i + k.length) ' '))

/-- The keyword matching at position `i`, if any.  The keywords start with
four distinct letters, so at most one of them can match at a given
position. -/
def matchKeywordAt (s : List Char) (i : Nat) : Option (List Char) :=
  actionKeywords.find? (keywordAt s i)

/-- The left-to-right scan of `re.search` (`src/ollama_integration.py`
line 55): the keyword of the leftmost word-bounded occurrence.  `fuel`
bounds the scan; it is called with `s.length + 1` so every start position
`0..s.length` is tried. -/
def scanKeyword (s : List Char) : Nat → Nat → Option (List Char)
  | 0, _ => none
  | fuel + 1, i =>
    match matchKeywordAt s i with
    | some k => some k
    | none => scanKeyword s fuel (i + 1)

/-- `sanitize_decision(decision)` (`src/ollama_integration.py` lines 44-63):
lowercase the raw text, return the leftmost word-bounded action keyword, or
the string `check` when the regex finds nothing. -/
def sanitize_decision (s : List Char) : List Char :=
  let low := s.map Char.toLower
  match scanKeyword low (low.length + 1) 0 with
  | some k => k
  | none => "check".toList

/-- The retry loop of `get_ai_decision` (`src/ollama_integration.py`
lines 95-114).  Each entry of `attempts` is one loop iteration's transport
outcome: `none` for a `RequestException` (the code then returns `fold`
immediately) and `some content` for a successfully received response body.
A successful iteration sanitizes the content and, since the sanitized value
is always one of the four actions, returns it; when the attempt list (the
retry budget) is exhausted the code returns `fold`. -/
def get_ai_decision : List (Option (List Char)) → List Char
  | [] => "fold".toList
  | none :: _ => "fold".toList
  | some t :: rest =>
    let v := sanitize_decision t
    if v == "fold".toList || v == "check".toList || v == "bet".toList
        || v == "raise".toList then v
    else get_ai_decision rest

/-! ### Concrete fixtures used by the claim theorems -/

/-- A decision oracle on which every queried player checks. -/
def allCheck : Nat → Decision × Nat := fun _ => (Decision.check, 0)

/-- A two-player game state entering a new round with player 1 (index 1)
still folded from the previous round and a stale `current_bet` of 40. -/
def c8_start : GameState :=
  ⟨[⟨1000, [], 0, true⟩, ⟨500, [(7, "hearts"), (8, "clubs")], 40, false⟩],
   [], [], 0, 0, 2⟩

/-- A small fresh deck for the pre-flop deal of `c8_start` (dealing pops
from the END of the list). -/
def c8_fresh : List Card := [(2, "hearts"), (3, "clubs"), (9, "diamonds"), (10, "spades")]

/-- The state `play_pre_flop c8_fresh allCheck c8_start` actually produces:
both players are dealt 2 cards, the dealer advances, but the folded player
is still inactive and keeps its stale bet. -/
def c8_after : GameState :=
  ⟨[⟨1000, [(10, "spades"), (9, "diamonds")], 0, true⟩,
    ⟨500, [(3, "clubs"), (2, "hearts")], 40, false⟩],
   [], [], 0, 1, 2⟩

/-! ### Basic lemmas about `keys`, sorting and the hand predicates -/

theorem mem_keys {α : Type} [DecidableEq α] {a : α} :
    ∀ {l : List α}, a ∈ keys l ↔ a ∈ l := by
  intro l
  induction l with
  | nil => simp [keys]
  | cons b l ih =>
    by_cases hab : a = b
    · subst hab; simp [keys]
    · simp [keys, List.mem_filter, decide_eq_true_eq, hab, ih]

theorem keys_nodup {α : Type} [DecidableEq α] : ∀ (l : List α), (keys l).Nodup := by
  intro l
  induction l with
  | nil => simp [keys]
  | cons b l ih =>
    refine List.nodup_cons.mpr ⟨?_, ih.filter _⟩
    simp [List.mem_filter]

theorem keys_perm {α : Type} [DecidableEq α] {l l' : List α} (h : l.Perm l') :
    (keys l).Perm (keys l') := by
  refine (List.subperm_of_subset (keys_nodup l) ?_).antisymm
    (List.subperm_of_subset (keys_nodup l') ?_)
  · intro a ha
    exact mem_keys.mpr (h.mem_iff.mp (mem_keys.mp ha))
  · intro a ha
    exact mem_keys.mpr (h.mem_iff.mpr (mem_keys.mp ha))

instance : IsTotal Nat (fun a b : Nat => b ≤ a) := ⟨fun a b => le_total b a⟩

instance : IsTrans Nat (fun a b : Nat => b ≤ a) := ⟨fun _ _ _ h1 h2 => le_trans h2 h1⟩

instance : IsAntisymm Nat (fun a b : Nat => b ≤ a) := ⟨fun _ _ h1 h2 => le_antisymm h2 h1⟩

theorem sortAsc_perm_eq {l l' : List Nat} (h : l.Perm l') : sortAsc l = sortAsc l' :=
  List.eq_of_perm_of_sorted
    ((List.perm_insertionSort _ l).trans (h.trans (List.perm_insertionSort _ l').symm))
    (List.sorted_insertionSort _ l) (List.sorted_insertionSort _ l')

theorem sortDesc_perm_eq {l l' : List Nat} (h : l.Perm l') : sortDesc l = sortDesc l' :=
  List.eq_of_perm_of_sorted
    ((List.perm_insertionSort _ l).trans (h.trans (List.perm_insertionSort _ l').symm))
    (List.sorted_insertionSort _ l) (List.sorted_insertionSort _ l')

theorem uniqueSorted_perm_eq {l l' : List Nat} (h : l.Perm l') :
    uniqueSorted l = uniqueSorted l' :=
  sortAsc_perm_eq (keys_perm h)

theorem bool_eq_of_iff {a b : Bool} (h : a = true ↔ b = true) : a = b := by
  cases a <;> cases b <;> simp_all

theorem hasCountValue_iff {l : List Nat} {k : Nat} :
    hasCountValue l k = true ↔ ∃ r ∈ l, l.count r = k := by
  simp [hasCountValue, List.any_eq_true, mem_keys, beq_iff_eq]

theorem hasCountValue_perm {l l' : List Nat} (h : l.Perm l') (k : Nat) :
    hasCountValue l k = hasCountValue l' k := by
  refine bool_eq_of_iff ?_
  rw [hasCountValue_iff, hasCountValue_iff]
  constructor
  · rintro ⟨r, hm, hc⟩
    exact ⟨r, h.mem_iff.mp hm, (h.count_eq r) ▸ hc⟩
  · rintro ⟨r, hm, hc⟩
    exact ⟨r, h.mem_iff.mpr hm, (h.count_eq r).trans hc⟩

theorem keysCountFilter_perm_eq {l l' : List Nat} (h : l.Perm l') (k : Nat) :
    ((keys l).filter (fun r => l.count r == k)).Perm
      ((keys l').filter (fun r => l'.count r == k)) := by
  have hc : ∀ r ∈ keys l, (l.count r == k) = (l'.count r == k) := by
    intro r _
    rw [h.count_eq r]
  rw [List.filter_congr hc]
  exact (keys_perm h).filter _

theorem is_two_pair_perm {l l' : List Nat} (h : l.Perm l') :
    is_two_pair l = is_two_pair l' := by
  unfold is_two_pair
  rw [(keysCountFilter_perm_eq h 2).length_eq]

theorem is_flush_iff {suits : List Suit} :
    is_flush suits = true ↔ ∃ s ∈ suits, 5 ≤ suits.count s := by
  simp [is_flush, List.any_eq_true, mem_keys]

theorem is_flush_perm {l l' : List Suit} (h : l.Perm l') : is_flush l = is_flush l' := by
  refine bool_eq_of_iff ?_
  rw [is_flush_iff, is_flush_iff]
  constructor
  · rintro ⟨s, hm, hc⟩
    exact ⟨s, h.mem_iff.mp hm, (h.count_eq s) ▸ hc⟩
  · rintro ⟨s, hm, hc⟩
    exact ⟨s, h.mem_iff.mpr hm, (h.count_eq s) ▸ hc⟩

theorem is_straight_perm {l l' : List Nat} (h : l.Perm l') :
    is_straight l = is_straight l' := by
  unfold is_straight
  rw [uniqueSorted_perm_eq h]

theorem get_best_straight_perm_eq {l l' : List Nat} (h : l.Perm l') :
    get_best_straight l = get_best_straight l' := by
  unfold get_best_straight
  rw [uniqueSorted_perm_eq h]

theorem is_straight_flush_iff {cards : List Card} :
    is_straight_flush cards = true ↔
      ∃ s ∈ cards.map Prod.snd, 5 ≤ (cards.map Prod.snd).count s ∧
        is_straight ((cards.filter (fun c => c.snd == s)).map Prod.fst) = true := by
  simp [is_straight_flush, List.any_eq_true, mem_keys]

theorem is_straight_flush_perm {cards cards' : List Card} (h : cards.Perm cards') :
    is_straight_flush cards = is_straight_flush cards' := by
  refine bool_eq_of_iff ?_
  rw [is_straight_flush_iff, is_straight_flush_iff]
  have hs : (cards.map Prod.snd).Perm (cards'.map Prod.snd) := h.map _
  constructor
  · rintro ⟨s, hm, hc, hst⟩
    refine ⟨s, hs.mem_iff.mp hm, (hs.count_eq s) ▸ hc, ?_⟩
    rw [← is_straight_perm ((h.filter (fun c => c.snd == s)).map Prod.fst)]
    exact hst
  · rintro ⟨s, hm, hc, hst⟩
    refine ⟨s, hs.mem_iff.mpr hm, (hs.count_eq s) ▸ hc, ?_⟩
    rw [is_straight_perm ((h.filter (fun c => c.snd == s)).map Prod.fst)]
    exact hst

/-! ### `isSome` characterizations of the fallible tie-break selectors -/

theorem head?_isSome_iff {α : Type} {l : List α} : (l.head?).isSome = true ↔ l ≠ [] := by
  cases l <;> simp

theorem head?_filter_isSome {α : Type} {l : List α} {p : α → Bool} :
    ((l.filter p).head?).isSome = true ↔ ∃ a ∈ l, p a = true := by
  rw [head?_isSome_iff, Ne, List.filter_eq_nil_iff]
  push_neg
  simp

theorem max?_isSome_iff {l : List Nat} : (l.max?).isSome = true ↔ l ≠ [] := by
  constructor
  · intro h hnil
    subst hnil
    simp at h
  · intro h
    cases hl : l.max? with
    | none => exact absurd (List.max?_eq_none_iff.mp hl) h
    | some a => simp

theorem firstKeyWith_isSome_iff {l : List Nat} {p : Nat → Bool} :
    (firstKeyWith l p).isSome = true ↔ ∃ r ∈ l, p r = true := by
  unfold firstKeyWith
  rw [head?_filter_isSome]
  simp [mem_keys]

theorem firstKeyWith_spec {l : List Nat} {p : Nat → Bool} {r : Nat}
    (h : firstKeyWith l p = some r) : r ∈ l ∧ p r = true := by
  unfold firstKeyWith at h
  cases hl : (keys l).filter p with
  | nil => rw [hl] at h; simp at h
  | cons b bs =>
    rw [hl] at h
    simp only [List.head?_cons, Option.some.injEq] at h
    have hb : b ∈ (keys l).filter p := hl ▸ List.mem_cons_self b bs
    have hmf := List.mem_filter.mp hb
    rw [← h]
    exact ⟨mem_keys.mp hmf.1, hmf.2⟩

theorem get_best_four_isSome_iff {l : List Nat} :
    (get_best_four_of_a_kind l).isSome = true ↔
      (∃ r ∈ l, l.count r = 4) ∧ ∃ x ∈ l, ∃ y ∈ l, x ≠ y := by
  cases h4 : firstKeyWith l (fun r => l.count r == 4) with
  | none =>
    simp only [get_best_four_of_a_kind, h4, Option.isSome_none, Bool.false_eq_true,
      false_iff, not_and]
    rintro ⟨r, hr, hc⟩ _
    have : (firstKeyWith l (fun r => l.count r == 4)).isSome = true :=
      firstKeyWith_isSome_iff.mpr ⟨r, hr, by simp [hc]⟩
    rw [h4] at this
    cases this
  | some four =>
    have hf := firstKeyWith_spec h4
    have h4c : l.count four = 4 := by simpa [beq_iff_eq] using hf.2
    cases hm : ((keys l).filter (fun r => r ≠ four)).max? with
    | none =>
      simp only [get_best_four_of_a_kind, h4, hm, Option.isSome_none, Bool.false_eq_true,
        false_iff, not_and]
      rintro _ ⟨x, hx, y, hy, hxy⟩
      have hne : ∃ a, a ∈ keys l ∧ a ≠ four := by
        by_cases hxf : x = four
        · exact ⟨y, mem_keys.mpr hy, fun hyf => hxy (hxf.trans hyf.symm)⟩
        · exact ⟨x, mem_keys.mpr hx, hxf⟩
      obtain ⟨a, ham, hanef⟩ := hne
      have hfne : ((keys l).filter (fun r => r ≠ four)) ≠ [] := by
        intro hnil
        have := List.filter_eq_nil_iff.mp hnil a ham
        simp [hanef] at this
      have hms := max?_isSome_iff.mpr hfne
      rw [hm] at hms
      cases hms
    | some kick =>
      simp only [get_best_four_of_a_kind, h4, hm, Option.isSome_some, true_iff]
      have hkm : kick ∈ (keys l).filter (fun r => r ≠ four) :=
        List.max?_mem (fun a b => max_choice a b) hm
      have hk := List.mem_filter.mp hkm
      have hkne : kick ≠ four := by simpa [decide_eq_true_eq] using hk.2
      exact ⟨⟨four, hf.1, h4c⟩, kick, mem_keys.mp hk.1, four, hf.1, hkne⟩

theorem get_best_full_house_isSome_iff {l : List Nat} :
    (get_best_full_house l).isSome = true ↔
      (∃ r ∈ l, l.count r = 3) ∧ ∃ r ∈ l, l.count r = 2 := by
  cases h3 : firstKeyWith l (fun r => l.count r == 3) with
  | none =>
    simp only [get_best_full_house, h3, Option.isSome_none, Bool.false_eq_true,
      false_iff, not_and]
    rintro ⟨r, hr, hc⟩ _
    have : (firstKeyWith l (fun r => l.count r == 3)).isSome = true :=
      firstKeyWith_isSome_iff.mpr ⟨r, hr, by simp [hc]⟩
    rw [h3] at this
    cases this
  | some three =>
    cases h2 : firstKeyWith l (fun r => l.count r == 2) with
    | none =>
      simp only [get_best_full_house, h3, h2, Option.isSome_none, Bool.false_eq_true,
        false_iff, not_and]
      rintro _ ⟨r, hr, hc⟩
      have : (firstKeyWith l (fun r => l.count r == 2)).isSome = true :=
        firstKeyWith_isSome_iff.mpr ⟨r, hr, by simp [hc]⟩
      rw [h2] at this
      cases this
    | some pair =>
      simp only [get_best_full_house, h3, h2, Option.isSome_some, true_iff]
      have hf3 := firstKeyWith_spec h3
      have hf2 := firstKeyWith_spec h2
      exact ⟨⟨three, hf3.1, by simpa [beq_iff_eq] using hf3.2⟩,
             ⟨pair, hf2.1, by simpa [beq_iff_eq] using hf2.2⟩⟩

theorem get_best_flush_isSome_iff {cards : List Card} :
    (get_best_flush cards).isSome = true ↔
      ∃ s ∈ cards.map Prod.snd, 5 ≤ (cards.map Prod.snd).count s := by
  cases hh : ((keys (cards.map Prod.snd)).filter
      (fun s => decide (5 ≤ (cards.map Prod.snd).count s))).head? with
  | none =>
    simp only [get_best_flush, hh, Option.isSome_none, Bool.false_eq_true, false_iff]
    rintro ⟨s, hm, hc⟩
    have : (((keys (cards.map Prod.snd)).filter
        (fun s => decide (5 ≤ (cards.map Prod.snd).count s))).head?).isSome = true := by
      rw [head?_filter_isSome]
      exact ⟨s, mem_keys.mpr hm, by simpa using hc⟩
    rw [hh] at this
    cases this
  | some fsuit =>
    simp only [get_best_flush, hh, Option.isSome_some, true_iff]
    have hmem : fsuit ∈ (keys (cards.map Prod.snd)).filter
        (fun s => decide (5 ≤ (cards.map Prod.snd).count s)) := by
      cases hl : (keys (cards.map Prod.snd)).filter
          (fun s => decide (5 ≤ (cards.map Prod.snd).count s)) with
      | nil => rw [hl] at hh; cases hh
      | cons b bs =>
        rw [hl] at hh
        simp only [List.head?_cons, Option.some.injEq] at hh
        exact hh ▸ (hl ▸ List.mem_cons_self b bs)
    have := List.mem_filter.mp hmem
    exact ⟨fsuit, mem_keys.mp this.1, by simpa using this.2⟩

theorem get_best_three_isSome_iff {l : List Nat} :
    (get_best_three_of_a_kind l).isSome = true ↔ ∃ r ∈ l, l.count r = 3 := by
  cases h3 : firstKeyWith l (fun r => l.count r == 3) with
  | none =>
    simp only [get_best_three_of_a_kind, h3, Option.isSome_none, Bool.false_eq_true,
      false_iff]
    rintro ⟨r, hr, hc⟩
    have : (firstKeyWith l (fun r => l.count r == 3)).isSome = true :=
      firstKeyWith_isSome_iff.mpr ⟨r, hr, by simp [hc]⟩
    rw [h3] at this
    cases this
  | some three =>
    simp only [get_best_three_of_a_kind, h3, Option.isSome_some, true_iff]
    have hf := firstKeyWith_spec h3
    exact ⟨three, hf.1, by simpa [beq_iff_eq] using hf.2⟩

theorem get_best_one_pair_isSome_iff {l : List Nat} :
    (get_best_one_pair l).isSome = true ↔ ∃ r ∈ l, l.count r = 2 := by
  cases h2 : firstKeyWith l (fun r => l.count r == 2) with
  | none =>
    simp only [get_best_one_pair, h2, Option.isSome_none, Bool.false_eq_true, false_iff]
    rintro ⟨r, hr, hc⟩
    have : (firstKeyWith l (fun r => l.count r == 2)).isSome = true :=
      firstKeyWith_isSome_iff.mpr ⟨r, hr, by simp [hc]⟩
    rw [h2] at this
    cases this
  | some pair =>
    simp only [get_best_one_pair, h2, Option.isSome_some, true_iff]
    have hf := firstKeyWith_spec h2
    exact ⟨pair, hf.1, by simpa [beq_iff_eq] using hf.2⟩

theorem get_best_two_pair_isSome_iff {l : List Nat} :
    (get_best_two_pair l).isSome = true ↔
      ∃ r ∈ l, r ∉ twoPairPairs l := by
  cases hm : (l.filter (fun r => !((twoPairPairs l).contains r))).max? with
  | none =>
    simp only [get_best_two_pair, hm, Option.isSome_none, Bool.false_eq_true, false_iff]
    rintro ⟨r, hr, hc⟩
    have hne : (l.filter (fun r => !((twoPairPairs l).contains r))) ≠ [] := by
      intro hnil
      have := List.filter_eq_nil_iff.mp hnil r hr
      simp only [Bool.not_eq_true', Bool.not_eq_false] at this
      exact hc (by simpa using this)
    have := max?_isSome_iff.mpr hne
    rw [hm] at this
    cases this
  | some kick =>
    simp only [get_best_two_pair, hm, Option.isSome_some, true_iff]
    have hkm : kick ∈ l.filter (fun r => !((twoPairPairs l).contains r)) :=
      List.max?_mem (fun a b => max_choice a b) hm
    have hk := List.mem_filter.mp hkm
    refine ⟨kick, hk.1, ?_⟩
    intro hmemp
    have := hk.2
    simp [hmemp] at this

/-! ### Permutation invariance of the classification -/

theorem exists_count_perm {l l' : List Nat} (h : l.Perm l') (k : Nat) :
    (∃ r ∈ l, l.count r = k) ↔ ∃ r ∈ l', l'.count r = k := by
  constructor
  · rintro ⟨r, hm, hc⟩
    exact ⟨r, h.mem_iff.mp hm, (h.count_eq r) ▸ hc⟩
  · rintro ⟨r, hm, hc⟩
    exact ⟨r, h.mem_iff.mpr hm, (h.count_eq r).trans hc⟩

theorem exists_pair_ne_perm {l l' : List Nat} (h : l.Perm l') :
    (∃ x ∈ l, ∃ y ∈ l, x ≠ y) ↔ ∃ x ∈ l', ∃ y ∈ l', x ≠ y := by
  constructor <;> rintro ⟨x, hx, y, hy, hxy⟩
  · exact ⟨x, h.mem_iff.mp hx, y, h.mem_iff.mp hy, hxy⟩
  · exact ⟨x, h.mem_iff.mpr hx, y, h.mem_iff.mpr hy, hxy⟩

theorem get_best_four_isSome_perm {l l' : List Nat} (h : l.Perm l') :
    (get_best_four_of_a_kind l).isSome = (get_best_four_of_a_kind l').isSome :=
  bool_eq_of_iff (by rw [get_best_four_isSome_iff, get_best_four_isSome_iff,
    exists_count_perm h 4, exists_pair_ne_perm h])

theorem get_best_full_house_isSome_perm {l l' : List Nat} (h : l.Perm l') :
    (get_best_full_house l).isSome = (get_best_full_house l').isSome :=
  bool_eq_of_iff (by rw [get_best_full_house_isSome_iff, get_best_full_house_isSome_iff,
    exists_count_perm h 3, exists_count_perm h 2])

theorem get_best_flush_isSome_perm {cards cards' : List Card} (h : cards.Perm cards') :
    (get_best_flush cards).isSome = (get_best_flush cards').isSome := by
  refine bool_eq_of_iff ?_
  rw [get_best_flush_isSome_iff, get_best_flush_isSome_iff]
  have hs := h.map Prod.snd
  constructor <;> rintro ⟨s, hm, hc⟩
  · exact ⟨s, hs.mem_iff.mp hm, (hs.count_eq s) ▸ hc⟩
  · exact ⟨s, hs.mem_iff.mpr hm, (hs.count_eq s) ▸ hc⟩

theorem get_best_three_isSome_perm {l l' : List Nat} (h : l.Perm l') :
    (get_best_three_of_a_kind l).isSome = (get_best_three_of_a_kind l').isSome :=
  bool_eq_of_iff (by rw [get_best_three_isSome_iff, get_best_three_isSome_iff,
    exists_count_perm h 3])

theorem get_best_one_pair_isSome_perm {l l' : List Nat} (h : l.Perm l') :
    (get_best_one_pair l).isSome = (get_best_one_pair l').isSome :=
  bool_eq_of_iff (by rw [get_best_one_pair_isSome_iff, get_best_one_pair_isSome_iff,
    exists_count_perm h 2])

theorem twoPairPairs_perm_eq {l l' : List Nat} (h : l.Perm l') :
    twoPairPairs l = twoPairPairs l' := by
  unfold twoPairPairs
  rw [sortDesc_perm_eq (keysCountFilter_perm_eq h 2)]

theorem get_best_two_pair_isSome_perm {l l' : List Nat} (h : l.Perm l') :
    (get_best_two_pair l).isSome = (get_best_two_pair l').isSome := by
  refine bool_eq_of_iff ?_
  rw [get_best_two_pair_isSome_iff, get_best_two_pair_isSome_iff, twoPairPairs_perm_eq h]
  constructor <;> rintro ⟨r, hm, hp⟩
  · exact ⟨r, h.mem_iff.mp hm, hp⟩
  · exact ⟨r, h.mem_iff.mpr hm, hp⟩

theorem map_const_fst_eq {c : Nat} {o o' : Option (List Nat)} (h : o.isSome = o'.isSome) :
    (o.map (fun t => (c, t))).map Prod.fst = (o'.map (fun t => (c, t))).map Prod.fst := by
  cases o <;> cases o' <;> simp_all

/-- Core permutation lemma: the CATEGORY returned by `evaluate_hand` (and
whether it errors) depends only on the multiset of cards, even though some
tie-break lists (full house, three of a kind) depend on the input order. -/
theorem evaluateCards_fst_perm {cards cards' : List Card} (h : cards.Perm cards') :
    (evaluateCards cards).map Prod.fst = (evaluateCards cards').map Prod.fst := by
  have hr : (cards.map Prod.fst).Perm (cards'.map Prod.fst) := h.map _
  have hs : (cards.map Prod.snd).Perm (cards'.map Prod.snd) := h.map _
  have e1 := is_straight_flush_perm h
  have e2 : is_four_of_a_kind (cards.map Prod.fst)
      = is_four_of_a_kind (cards'.map Prod.fst) := hasCountValue_perm hr 4
  have e3 : is_full_house (cards.map Prod.fst)
      = is_full_house (cards'.map Prod.fst) := by
    unfold is_full_house
    rw [hasCountValue_perm hr 3, hasCountValue_perm hr 2]
  have e4 := is_flush_perm hs
  have e5 := is_straight_perm hr
  have e6 : is_three_of_a_kind (cards.map Prod.fst)
      = is_three_of_a_kind (cards'.map Prod.fst) := hasCountValue_perm hr 3
  have e7 := is_two_pair_perm hr
  have e8 : is_one_pair (cards.map Prod.fst)
      = is_one_pair (cards'.map Prod.fst) := hasCountValue_perm hr 2
  simp only [evaluateCards]
  rw [← e1, ← e2, ← e3, ← e4, ← e5, ← e6, ← e7, ← e8]
  by_cases c1 : is_straight_flush cards = true
  · simp [c1]
  · simp only [if_neg c1]
    by_cases c2 : is_four_of_a_kind (cards.map Prod.fst) = true
    · simp only [if_pos c2]
      exact map_const_fst_eq (get_best_four_isSome_perm hr)
    · simp only [if_neg c2]
      by_cases c3 : is_full_house (cards.map Prod.fst) = true
      · simp only [if_pos c3]
        exact map_const_fst_eq (get_best_full_house_isSome_perm hr)
      · simp only [if_neg c3]
        by_cases c4 : is_flush (cards.map Prod.snd) = true
        · simp only [if_pos c4]
          exact map_const_fst_eq (get_best_flush_isSome_perm h)
        · simp only [if_neg c4]
          by_cases c5 : is_straight (cards.map Prod.fst) = true
          · simp [c5]
          · simp only [if_neg c5]
            by_cases c6 : is_three_of_a_kind (cards.map Prod.fst) = true
            · simp only [if_pos c6]
              exact map_const_fst_eq (get_best_three_isSome_perm hr)
            · simp only [if_neg c6]
              by_cases c7 : is_two_pair (cards.map Prod.fst) = true
              · simp only [if_pos c7]
                exact map_const_fst_eq (get_best_two_pair_isSome_perm hr)
              · simp only [if_neg c7]
                by_cases c8 : is_one_pair (cards.map Prod.fst) = true
                · simp only [if_pos c8]
                  exact map_const_fst_eq (get_best_one_pair_isSome_perm hr)
                · simp [c8]

/-! ### Totality of `evaluate_hand` on well-formed inputs -/

theorem isSome_map_const {c : Nat} {o : Option (List Nat)} :
    ((o.map (fun t => (c, t))).isSome) = o.isSome := by
  cases o <;> rfl

theorem exists_ne_of_count_lt_length {l : List Nat} {a : Nat}
    (h : l.count a < l.length) : ∃ b ∈ l, b ≠ a := by
  by_contra hc
  push_neg at hc
  have := List.count_eq_length.mpr (fun b hb => (hc b hb).symm)
  omega

theorem myCountP_not_add (p : Nat → Bool) :
    ∀ l : List Nat, l.countP p + l.countP (fun a => !p a) = l.length := by
  intro l
  induction l with
  | nil => simp
  | cons a t ih =>
    rw [List.countP_cons, List.countP_cons]
    cases h : p a <;> simp [h] <;> omega

theorem countP_orBeq (p1 p2 : Nat) (hne : p1 ≠ p2) :
    ∀ l : List Nat, l.countP (fun r => (r == p1) || (r == p2)) = l.count p1 + l.count p2 := by
  intro l
  induction l with
  | nil => simp
  | cons a t ih =>
    by_cases h1 : a = p1
    · subst h1
      have h2 : a ≠ p2 := hne
      simp [List.countP_cons, List.count_cons, ih, h2, Ne.symm h2]
      omega
    · by_cases h2 : a = p2
      · subst h2
        simp [List.countP_cons, List.count_cons, ih, h1, Ne.symm h1]
        omega
      · simp [List.countP_cons, List.count_cons, ih, h1, h2, Ne.symm h1, Ne.symm h2]

theorem twoPairPairs_shape {l : List Nat} (h2 : is_two_pair l = true) :
    ∃ p1 p2, twoPairPairs l = [p1, p2] ∧ p1 ≠ p2 ∧ l.count p1 = 2 ∧ l.count p2 = 2 := by
  have hlen2 : 2 ≤ ((keys l).filter (fun r => l.count r == 2)).length := by
    unfold is_two_pair at h2
    exact of_decide_eq_true h2
  have hperm : (sortDesc ((keys l).filter (fun r => l.count r == 2))).Perm
      ((keys l).filter (fun r => l.count r == 2)) := List.perm_insertionSort _ _
  have hnodupf : ((keys l).filter (fun r => l.count r == 2)).Nodup := (keys_nodup l).filter _
  have hnodup : (sortDesc ((keys l).filter (fun r => l.count r == 2))).Nodup :=
    (hperm.nodup_iff).mpr hnodupf
  have hlen : 2 ≤ (sortDesc ((keys l).filter (fun r => l.count r == 2))).length := by
    rw [hperm.length_eq]
    exact hlen2
  cases hsd : sortDesc ((keys l).filter (fun r => l.count r == 2)) with
  | nil => rw [hsd] at hlen; simp at hlen
  | cons a tail =>
    cases htl : tail with
    | nil => rw [hsd, htl] at hlen; simp at hlen
    | cons b rest =>
      subst htl
      have hmem : ∀ x ∈ sortDesc ((keys l).filter (fun r => l.count r == 2)),
          l.count x = 2 := by
        intro x hx
        have hxf := hperm.mem_iff.mp hx
        have := List.mem_filter.mp hxf
        simpa [beq_iff_eq] using this.2
      refine ⟨a, b, ?_, ?_, ?_, ?_⟩
      · unfold twoPairPairs
        rw [hsd]
        rfl
      · rw [hsd] at hnodup
        intro hab
        exact (List.nodup_cons.mp hnodup).1 (hab ▸ List.mem_cons_self b rest)
      · exact hmem a (hsd ▸ List.mem_cons_self a (b :: rest))
      · exact hmem b (hsd ▸ List.mem_cons_of_mem a (List.mem_cons_self b rest))

theorem contains_pair_eq {p1 p2 r : Nat} :
    ([p1, p2] : List Nat).contains r = ((r == p1) || (r == p2)) := by
  by_cases h : r = p1 <;> by_cases h2 : r = p2 <;> simp [h, h2]

/-- `evaluate_hand` can only error through `[0]` indexing or `max([])`; with a
card count of 2, 5, 6 or 7 every branch actually reached performs those
operations on non-empty collections. -/
theorem evaluateCards_isSome_of_sizes {cards : List Card}
    (hn : cards.length = 2 ∨ cards.length = 5 ∨ cards.length = 6 ∨ cards.length = 7) :
    (evaluateCards cards).isSome = true := by
  have hlen : (cards.map Prod.fst).length = cards.length := List.length_map _ _
  simp only [evaluateCards]
  by_cases c1 : is_straight_flush cards = true
  · simp [c1]
  · simp only [if_neg c1]
    by_cases c2 : is_four_of_a_kind (cards.map Prod.fst) = true
    · simp only [if_pos c2]
      rw [isSome_map_const, get_best_four_isSome_iff]
      obtain ⟨r, hr, hc⟩ := hasCountValue_iff.mp c2
      have h4n : 4 ≤ (cards.map Prod.fst).length := hc ▸ List.count_le_length r _
      have h5 : 5 ≤ (cards.map Prod.fst).length := by
        rcases hn with h | h | h | h <;> omega
      have hlt : (cards.map Prod.fst).count r < (cards.map Prod.fst).length := by omega
      obtain ⟨y, hy, hyr⟩ := exists_ne_of_count_lt_length hlt
      exact ⟨⟨r, hr, hc⟩, r, hr, y, hy, fun e => hyr e.symm⟩
    · simp only [if_neg c2]
      by_cases c3 : is_full_house (cards.map Prod.fst) = true
      · simp only [if_pos c3]
        rw [isSome_map_const, get_best_full_house_isSome_iff]
        have hsplit : hasCountValue (cards.map Prod.fst) 3 = true ∧
            hasCountValue (cards.map Prod.fst) 2 = true := by
          simpa [is_full_house] using c3
        exact ⟨hasCountValue_iff.mp hsplit.1, hasCountValue_iff.mp hsplit.2⟩
      · simp only [if_neg c3]
        by_cases c4 : is_flush (cards.map Prod.snd) = true
        · simp only [if_pos c4]
          rw [isSome_map_const, get_best_flush_isSome_iff]
          exact is_flush_iff.mp c4
        · simp only [if_neg c4]
          by_cases c5 : is_straight (cards.map Prod.fst) = true
          · simp [c5]
          · simp only [if_neg c5]
            by_cases c6 : is_three_of_a_kind (cards.map Prod.fst) = true
            · simp only [if_pos c6]
              rw [isSome_map_const, get_best_three_isSome_iff]
              exact hasCountValue_iff.mp c6
            · simp only [if_neg c6]
              by_cases c7 : is_two_pair (cards.map Prod.fst) = true
              · simp only [if_pos c7]
                rw [isSome_map_const, get_best_two_pair_isSome_iff]
                obtain ⟨p1, p2, hpp, hne, hc1, hc2⟩ := twoPairPairs_shape c7
                have hcp : (cards.map Prod.fst).countP
                    (fun r => (twoPairPairs (cards.map Prod.fst)).contains r) = 4 := by
                  simp only [hpp, contains_pair_eq]
                  rw [countP_orBeq p1 p2 hne, hc1, hc2]
                have h4n : 4 ≤ (cards.map Prod.fst).length := by
                  rw [← hcp]
                  exact List.countP_le_length _
                have h5 : 5 ≤ (cards.map Prod.fst).length := by
                  rcases hn with h | h | h | h <;> omega
                have hnot : 0 < (cards.map Prod.fst).countP
                    (fun r => !((twoPairPairs (cards.map Prod.fst)).contains r)) := by
                  have := myCountP_not_add
                    (fun r => (twoPairPairs (cards.map Prod.fst)).contains r)
                    (cards.map Prod.fst)
                  omega
                have hex := List.countP_pos_iff.mp hnot
                obtain ⟨a, ha, hpa⟩ := hex
                refine ⟨a, ha, ?_⟩
                simpa using hpa
              · simp only [if_neg c7]
                by_cases c8 : is_one_pair (cards.map Prod.fst) = true
                · simp only [if_pos c8]
                  rw [isSome_map_const, get_best_one_pair_isSome_iff]
                  exact hasCountValue_iff.mp c8
                · simp [c8]

/-! ### First-occurrence selection -/

/-- The first Counter key satisfying `p` is the first ELEMENT of the
underlying list satisfying `p`: Counter keys appear in first-occurrence
order. -/
theorem keys_filter_head_eq {α : Type} [DecidableEq α] :
    ∀ (l : List α) (p : α → Bool), ((keys l).filter p).head? = (l.filter p).head? := by
  intro l
  induction l with
  | nil => intro p; rfl
  | cons a t ih =>
    intro p
    by_cases hpa : p a = true
    · simp [keys, List.filter_cons, hpa]
    · have hpa' : p a = false := by
        cases h : p a
        · rfl
        · exact absurd h hpa
      simp only [keys, List.filter_cons, hpa', Bool.false_eq_true, if_false,
        List.filter_filter]
      rw [ih]
      congr 1
      apply List.filter_congr
      intro b hb
      by_cases hba : b = a
      · subst hba
        simp [hpa']
      · simp [hba]

theorem firstKeyWith_eq_filter_head {l : List Nat} {p : Nat → Bool} :
    firstKeyWith l p = (l.filter p).head? := by
  unfold firstKeyWith
  exact keys_filter_head_eq l p

/-! ### Winner determination and pre-flop lemmas -/

theorem determine_winner_single {players : List Player} {community : List Card}
    {i : Nat} {p : Player}
    (hact : (players.enum).filter (fun ip => ip.2.is_active) = [(i, p)])
    {ev : Nat × List Nat} (hev : evaluate_hand p.hand community = some ev) :
    determine_winner players community = some (some i, 1) := by
  unfold determine_winner
  rw [hact]
  simp [winnerFold, hev]

theorem deal_players_fields : ∀ (ps : List Player) (d : List Card)
    (ps2 : List Player) (d2 : List Card), deal_players ps d = some (ps2, d2) →
    ps2.map Player.is_active = ps.map Player.is_active ∧
    ps2.map Player.current_bet = ps.map Player.current_bet := by
  intro ps
  induction ps with
  | nil =>
    intro d ps2 d2 h
    simp only [deal_players, Option.some.injEq, Prod.mk.injEq] at h
    rw [← h.1]
    exact ⟨rfl, rfl⟩
  | cons p t ih =>
    intro d ps2 d2 h
    cases hd : deal_hand d with
    | none => simp [deal_players, hd] at h
    | some pr1 =>
      obtain ⟨hcards, d1⟩ := pr1
      cases hdp : deal_players t d1 with
      | none => simp [deal_players, hd, hdp] at h
      | some pr2 =>
        obtain ⟨ps3, d3⟩ := pr2
        simp only [deal_players, hd, hdp, Option.some.injEq, Prod.mk.injEq] at h
        obtain ⟨hps, _⟩ := h
        rw [← hps]
        have hih := ih d1 ps3 d3 hdp
        simp only [List.map_cons]
        exact ⟨by rw [hih.1], by rw [hih.2]⟩

theorem betting_pass_inactive : ∀ (ps : List Player) (decide : Nat → Decision × Nat)
    (i cb pot j : Nat), (ps.get? j).map Player.is_active = some false →
    ((betting_pass decide i cb pot ps).1).get? j = ps.get? j := by
  intro ps
  induction ps with
  | nil =>
    intro decide i cb pot j h
    simp [betting_pass]
  | cons p t ih =>
    intro decide i cb pot j h
    cases j with
    | zero =>
      have hpa : p.is_active = false := by simpa using h
      simp [betting_pass, hpa]
    | succ n =>
      have htail : (t.get? n).map Player.is_active = some false := h
      cases hpa : p.is_active
      · simp only [betting_pass, hpa, Bool.false_eq_true, if_false]
        simpa using ih decide (i + 1) cb pot n htail
      · simp only [betting_pass, hpa, if_true]
        simpa using ih decide (i + 1)
          (max cb (make_decision p (decide i).1 (decide i).2 cb).current_bet)
          (pot + (make_decision p (decide i).1 (decide i).2 cb).current_bet) n htail

/-! ### Decision boundary lemmas -/

theorem matchKeywordAt_mem {s : List Char} {i : Nat} {k : List Char}
    (h : matchKeywordAt s i = some k) : k ∈ actionKeywords :=
  List.mem_of_find?_eq_some h

theorem scanKeyword_mem {s : List Char} :
    ∀ (fuel i : Nat) (k : List Char), scanKeyword s fuel i = some k →
      k ∈ actionKeywords := by
  intro fuel
  induction fuel with
  | zero => intro i k h; simp [scanKeyword] at h
  | succ f ih =>
    intro i k h
    simp only [scanKeyword] at h
    cases hm : matchKeywordAt s i with
    | some k2 =>
      rw [hm] at h
      simp only [Option.some.injEq] at h
      exact h ▸ matchKeywordAt_mem hm
    | none =>
      rw [hm] at h
      exact ih (i + 1) k h

theorem matchKeywordAt_lt_length {s : List Char} {i : Nat} {k : List Char}
    (h : matchKeywordAt s i = some k) : i < s.length := by
  have hk := List.find?_some h
  have hmem := matchKeywordAt_mem h
  have hkne : k ≠ [] := fun hknil => absurd (hknil ▸ hmem) (by decide)
  simp only [keywordAt, Bool.and_eq_true] at hk
  have h1 := hk.1.1
  by_contra hge
  push_neg at hge
  rw [List.drop_eq_nil_of_le hge, List.take_nil] at h1
  exact hkne (eq_of_beq h1).symm

theorem scanKeyword_none_of {s : List Char} (hall : ∀ j, matchKeywordAt s j = none) :
    ∀ (fuel i : Nat), scanKeyword s fuel i = none := by
  intro fuel
  induction fuel with
  | zero => intro i; rfl
  | succ f ih =>
    intro i
    simp only [scanKeyword, hall i]
    exact ih (i + 1)

theorem scanKeyword_first {s : List Char} {i0 : Nat} {k : List Char}
    (hm : matchKeywordAt s i0 = some k) :
    ∀ (fuel i : Nat), i ≤ i0 → i0 < i + fuel →
      (∀ j, i ≤ j → j < i0 → matchKeywordAt s j = none) →
      scanKeyword s fuel i = some k := by
  intro fuel
  induction fuel with
  | zero => intro i h1 h2 _; omega
  | succ f ih =>
    intro i h1 h2 hnone
    simp only [scanKeyword]
    rcases Nat.eq_or_lt_of_le h1 with he | hlt
    · rw [he, hm]
    · rw [hnone i le_rfl hlt]
      exact ih (i + 1) hlt (by omega) (fun j hj1 hj2 => hnone j (by omega) hj2)

theorem sanitize_decision_cases (s : List Char) :
    sanitize_decision s = "fold".toList ∨ sanitize_decision s = "check".toList ∨
    sanitize_decision s = "bet".toList ∨ sanitize_decision s = "raise".toList := by
  have hrw : sanitize_decision s =
      match scanKeyword (s.map Char.toLower) ((s.map Char.toLower).length + 1) 0 with
      | some k => k
      | none => "check".toList := rfl
  rw [hrw]
  cases hs : scanKeyword (s.map Char.toLower) ((s.map Char.toLower).length + 1) 0 with
  | none => right; left; rfl
  | some k =>
    have hmem := scanKeyword_mem _ _ _ hs
    simp only [actionKeywords, List.mem_cons, List.not_mem_nil, or_false] at hmem
    rcases hmem with h | h | h | h
    · left; exact h
    · right; left; exact h
    · right; right; left; exact h
    · right; right; right; exact h

theorem sanitize_decision_of_first {s : List Char} {i : Nat} {k : List Char}
    (hm : matchKeywordAt (s.map Char.toLower) i = some k)
    (hfirst : ∀ j, j < i → matchKeywordAt (s.map Char.toLower) j = none) :
    sanitize_decision s = k := by
  have hrw : sanitize_decision s =
      match scanKeyword (s.map Char.toLower) ((s.map Char.toLower).length + 1) 0 with
      | some k => k
      | none => "check".toList := rfl
  rw [hrw]
  have hlt := matchKeywordAt_lt_length hm
  rw [scanKeyword_first hm ((s.map Char.toLower).length + 1) 0 (Nat.zero_le i)
    (by omega) (fun j _ hj2 => hfirst j hj2)]

theorem sanitize_decision_of_none {s : List Char}
    (hall : ∀ j, matchKeywordAt (s.map Char.toLower) j = none) :
    sanitize_decision s = "check".toList := by
  have hrw : sanitize_decision s =
      match scanKeyword (s.map Char.toLower) ((s.map Char.toLower).length + 1) 0 with
      | some k => k
      | none => "check".toList := rfl
  rw [hrw]
  rw [scanKeyword_none_of hall _ 0]

theorem get_ai_decision_cases : ∀ attempts,
    get_ai_decision attempts = "fold".toList ∨
    get_ai_decision attempts = "check".toList ∨
    get_ai_decision attempts = "bet".toList ∨
    get_ai_decision attempts = "raise".toList := by
  intro attempts
  induction attempts with
  | nil => left; rfl
  | cons a rest ih =>
    cases a with
    | none => left; rfl
    | some t =>
      have hrw : get_ai_decision (some t :: rest) =
          (if sanitize_decision t == "fold".toList
              || sanitize_decision t == "check".toList
              || sanitize_decision t == "bet".toList
              || sanitize_decision t == "raise".toList then sanitize_decision t
           else get_ai_decision rest) := rfl
      rcases sanitize_decision_cases t with h | h | h | h
      · rw [hrw, h, if_pos (by decide)]
        left; rfl
      · rw [hrw, h, if_pos (by decide)]
        right; left; rfl
      · rw [hrw, h, if_pos (by decide)]
        right; right; left; rfl
      · rw [hrw, h, if_pos (by decide)]
        right; right; right; rfl

/-! ### Claim theorems -/

/-- C1: ranks 14,2,3,4,5 with mixed suits DO classify as a Straight
(category 5) with tie-break leading with 5, as the claim says — but the
claimed comparison fails: `get_best_straight` evaluates the
2,3,4,5,6 straight with an EMPTY tie-break list (the Python slice
`unique_ranks[i+4:i-1:-1]` is empty when the matching window starts at
index 0), so under the element-by-element order the wheel compares strictly
ABOVE the 6-high straight instead of strictly below it. -/
theorem C1_wheel_vs_sixhigh :
    evaluate_hand [(14, "hearts"), (2, "clubs")] [(3, "hearts"), (4, "clubs"), (5, "hearts")]
      = some (5, [5, 4, 3, 2, 14]) ∧
    evaluate_hand [(2, "hearts"), (3, "clubs")] [(4, "hearts"), (5, "clubs"), (6, "hearts")]
      = some (5, []) ∧
    pyListLt [] [5, 4, 3, 2, 14] = true :=
  ⟨by decide, by decide, by decide⟩

/-- C2: with distinct ranks 2,4,5,6,7,8,9 the code returns the straight
tie-break [8,7,6,5,4] — the run scan of `get_best_straight` starts at the
lowest distinct rank and returns the FIRST (lowest) qualifying run, not the
highest one (top card 9) that the claim and the function docstring
describe. -/
theorem C2_lowest_run_selected :
    evaluate_hand [(2, "hearts"), (4, "clubs")]
      [(5, "hearts"), (6, "clubs"), (7, "hearts"), (8, "clubs"), (9, "hearts")]
      = some (5, [8, 7, 6, 5, 4]) :=
  by decide

/-- C3 counterexample: two orderings of the same full-house card multiset
give different tie-breaks — `get_best_full_house` takes the first Counter
key of count 2, which depends on the order the cards were supplied. -/
theorem C3_counterexample :
    ([(3, "hearts"), (3, "clubs"), (5, "hearts"), (5, "clubs"),
      (2, "hearts"), (2, "clubs"), (2, "diamonds")] : List Card).Perm
      [(5, "hearts"), (5, "clubs"), (3, "hearts"), (3, "clubs"),
       (2, "hearts"), (2, "clubs"), (2, "diamonds")] ∧
    evaluateCards [(3, "hearts"), (3, "clubs"), (5, "hearts"), (5, "clubs"),
      (2, "hearts"), (2, "clubs"), (2, "diamonds")] = some (7, [2, 3]) ∧
    evaluateCards [(5, "hearts"), (5, "clubs"), (3, "hearts"), (3, "clubs"),
      (2, "hearts"), (2, "clubs"), (2, "diamonds")] = some (7, [2, 5]) ∧
    evaluateCards [(3, "hearts"), (3, "clubs"), (5, "hearts"), (5, "clubs"),
      (2, "hearts"), (2, "clubs"), (2, "diamonds")]
      ≠ evaluateCards [(5, "hearts"), (5, "clubs"), (3, "hearts"), (3, "clubs"),
        (2, "hearts"), (2, "clubs"), (2, "diamonds")] :=
  ⟨by decide, by decide, by decide, by decide⟩

/-- C3 amended: the CATEGORY returned by `evaluate_hand` (and whether it
errors) is invariant under any permutation of the combined cards and any
re-split between hole and community lists; the tie-break component is NOT
always invariant (full-house and three-of-a-kind rank selection follows
Counter insertion order). -/
theorem C3_category_perm_invariant :
    ∀ (h c h2 c2 : List Card), (h ++ c).Perm (h2 ++ c2) →
      (evaluate_hand h c).map Prod.fst = (evaluate_hand h2 c2).map Prod.fst :=
  fun _ _ _ _ hp => evaluateCards_fst_perm hp

/-- C3 witness: the permutation lemma applied to the two concrete orderings. -/
theorem C3_witness :
    (evaluate_hand [(3, "hearts"), (3, "clubs")]
      [(5, "hearts"), (5, "clubs"), (2, "hearts"), (2, "clubs"), (2, "diamonds")]).map Prod.fst
      = (evaluate_hand [(5, "hearts"), (5, "clubs")]
        [(3, "hearts"), (3, "clubs"), (2, "hearts"), (2, "clubs"), (2, "diamonds")]).map Prod.fst :=
  C3_category_perm_invariant _ _ _ _ (by decide)

/-- C4 counterexample: ranks 2,2,2,3,3,3,4 contain a rank of count ≥ 3 and
another distinct rank of count ≥ 2, yet the code does NOT classify the hand
as FullHouse (category 7): `is_full_house` demands a count of EXACTLY 2, so
the hand falls through to ThreeOfAKind (category 4) with tie-break
[2, 4, 3]. -/
theorem C4_counterexample :
    evaluateCards [(2, "hearts"), (2, "clubs"), (2, "diamonds"), (3, "hearts"),
      (3, "clubs"), (3, "diamonds"), (4, "hearts")] = some (4, [2, 4, 3]) ∧
    (evaluateCards [(2, "hearts"), (2, "clubs"), (2, "diamonds"), (3, "hearts"),
      (3, "clubs"), (3, "diamonds"), (4, "hearts")]).map Prod.fst ≠ some 7 :=
  ⟨by decide, by decide⟩

/-- C4 amended: a hand is a FullHouse iff some rank has count exactly 3 AND
another rank has count exactly 2 (two bare triples are ThreeOfAKind); the
tie-break is [t, p] where t is the FIRST rank in input (first-occurrence)
order whose count is 3 and p the first whose count is 2 — not the highest
ones. -/
theorem C4_full_house_first_encountered :
    ∀ cards : List Card,
      is_straight_flush cards = false →
      is_four_of_a_kind (cards.map Prod.fst) = false →
      is_full_house (cards.map Prod.fst) = true →
      ∃ t p, evaluateCards cards = some (7, [t, p]) ∧
        ((cards.map Prod.fst).filter
          (fun r => (cards.map Prod.fst).count r == 3)).head? = some t ∧
        ((cards.map Prod.fst).filter
          (fun r => (cards.map Prod.fst).count r == 2)).head? = some p := by
  intro cards hsf h4 hfh
  have hsplit : hasCountValue (cards.map Prod.fst) 3 = true ∧
      hasCountValue (cards.map Prod.fst) 2 = true := by
    simpa [is_full_house] using hfh
  have h3s : (firstKeyWith (cards.map Prod.fst)
      (fun r => (cards.map Prod.fst).count r == 3)).isSome = true := by
    rw [firstKeyWith_isSome_iff]
    obtain ⟨r, hr, hc⟩ := hasCountValue_iff.mp hsplit.1
    exact ⟨r, hr, by simp [hc]⟩
  have h2s : (firstKeyWith (cards.map Prod.fst)
      (fun r => (cards.map Prod.fst).count r == 2)).isSome = true := by
    rw [firstKeyWith_isSome_iff]
    obtain ⟨r, hr, hc⟩ := hasCountValue_iff.mp hsplit.2
    exact ⟨r, hr, by simp [hc]⟩
  cases hk3 : firstKeyWith (cards.map Prod.fst)
      (fun r => (cards.map Prod.fst).count r == 3) with
  | none => rw [hk3] at h3s; cases h3s
  | some t =>
    cases hk2 : firstKeyWith (cards.map Prod.fst)
        (fun r => (cards.map Prod.fst).count r == 2) with
    | none => rw [hk2] at h2s; cases h2s
    | some p =>
      refine ⟨t, p, ?_, ?_, ?_⟩
      · simp [evaluateCards, hsf, h4, hfh, get_best_full_house, hk3, hk2]
      · rw [← firstKeyWith_eq_filter_head]
        exact hk3
      · rw [← firstKeyWith_eq_filter_head]
        exact hk2

/-- C4 witness: in the order 3,3,5,5,2,2,2 the triple is 2 and the selected
pair rank is 3 (the first-encountered rank of count 2, not the highest). -/
theorem C4_witness :
    ∃ t p, evaluateCards [(3, "hearts"), (3, "clubs"), (5, "hearts"), (5, "clubs"),
        (2, "hearts"), (2, "clubs"), (2, "diamonds")] = some (7, [t, p]) ∧
      ((([(3, "hearts"), (3, "clubs"), (5, "hearts"), (5, "clubs"),
        (2, "hearts"), (2, "clubs"), (2, "diamonds")] : List Card).map Prod.fst).filter
        (fun r => (([(3, "hearts"), (3, "clubs"), (5, "hearts"), (5, "clubs"),
          (2, "hearts"), (2, "clubs"), (2, "diamonds")] : List Card).map Prod.fst).count r
            == 3)).head? = some t ∧
      ((([(3, "hearts"), (3, "clubs"), (5, "hearts"), (5, "clubs"),
        (2, "hearts"), (2, "clubs"), (2, "diamonds")] : List Card).map Prod.fst).filter
        (fun r => (([(3, "hearts"), (3, "clubs"), (5, "hearts"), (5, "clubs"),
          (2, "hearts"), (2, "clubs"), (2, "diamonds")] : List Card).map Prod.fst).count r
            == 2)).head? = some p :=
  C4_full_house_first_encountered _ (by decide) (by decide) (by decide)

/-- C5 counterexample: on the spec's own example the straight-flush
tie-break is the full descending run [14,13,12,11,10] computed over ALL
ranks, not the singleton [14] the claim states. -/
theorem C5_counterexample :
    evaluate_hand [(14, "hearts"), (13, "hearts")]
      [(12, "hearts"), (11, "hearts"), (10, "hearts"), (2, "clubs"), (3, "spades")]
      = some (9, [14, 13, 12, 11, 10]) ∧
    evaluate_hand [(14, "hearts"), (13, "hearts")]
      [(12, "hearts"), (11, "hearts"), (10, "hearts"), (2, "clubs"), (3, "spades")]
      ≠ some (9, [14]) :=
  ⟨by decide, by decide⟩

/-- C5 amended: every StraightFlush-classified hand gets category 9 with
tie-break `get_best_straight` of the ranks of ALL cards (the 5 descending
ranks of the first qualifying run, [] when that run starts at the lowest
distinct rank, or [5,4,3,2,14] for a wheel) — not `[topCard]` of the
flush-suit straight; on the spec's example the tie-break is
[14,13,12,11,10]. -/
theorem C5_straight_flush_tiebreak :
    (∀ (hand community : List Card), is_straight_flush (hand ++ community) = true →
      evaluate_hand hand community
        = some (9, get_best_straight ((hand ++ community).map Prod.fst))) ∧
    evaluate_hand [(14, "hearts"), (13, "hearts")]
      [(12, "hearts"), (11, "hearts"), (10, "hearts"), (2, "clubs"), (3, "spades")]
      = some (9, [14, 13, 12, 11, 10]) := by
  constructor
  · intro hand community h
    simp [evaluate_hand, evaluateCards, h]
  · decide

/-- C5 witness: a 2..6-hearts straight flush; the all-ranks run starts at the
lowest distinct rank, so the code even returns an EMPTY tie-break here. -/
theorem C5_witness :
    evaluate_hand [(5, "hearts"), (4, "hearts")]
      [(3, "hearts"), (2, "hearts"), (6, "hearts"), (9, "clubs"), (11, "spades")]
      = some (9, get_best_straight
          (([(5, "hearts"), (4, "hearts")] ++
            [(3, "hearts"), (2, "hearts"), (6, "hearts"), (9, "clubs"), (11, "spades")]).map
            Prod.fst)) :=
  C5_straight_flush_tiebreak.1 _ _ (by decide)

/-- C6: the betting pass adds `player.current_bet` — the player's CURRENT
field value, not the newly committed amount — to the pot.  After a player
bets 100 in one pass (pot 100, chips 1000 → 900), a Check in the next pass
leaves the player's state completely unchanged (0 newly committed) yet the
pot rises from 100 to 200, so the pot does NOT equal the sum of amounts
newly committed. -/
theorem C6_stale_bet_added_to_pot :
    (betting_round (fun _ => (Decision.bet, 50)) [⟨1000, [], 0, true⟩] 0).2 = 100 ∧
    (betting_round (fun _ => (Decision.bet, 50)) [⟨1000, [], 0, true⟩] 0).1
      = [⟨900, [], 100, true⟩] ∧
    betting_round (fun _ => (Decision.check, 0)) [⟨900, [], 100, true⟩] 100
      = ([⟨900, [], 100, true⟩], 200) :=
  ⟨by decide, by decide, by decide⟩

/-- C7 counterexample: with exactly one active player at showdown,
`determine_winner` declares that player winner but performs 1 hand
evaluation (one per active player), not 0 as the claim states. -/
theorem C7_counterexample :
    determine_winner
      [⟨500, [(6, "hearts"), (9, "clubs")], 0, false⟩,
       ⟨1000, [(2, "hearts"), (7, "diamonds")], 0, true⟩]
      [(3, "clubs"), (5, "spades"), (10, "hearts"), (12, "diamonds"), (13, "clubs")]
      = some (some 1, 1) ∧
    determine_winner
      [⟨500, [(6, "hearts"), (9, "clubs")], 0, false⟩,
       ⟨1000, [(2, "hearts"), (7, "diamonds")], 0, true⟩]
      [(3, "clubs"), (5, "spades"), (10, "hearts"), (12, "diamonds"), (13, "clubs")]
      ≠ some (some 1, 0) :=
  ⟨by decide, by decide⟩

/-- C7 amended: when exactly one player is active at showdown,
`determine_winner` declares that player the winner and invokes the hand
evaluator exactly ONCE (for that player), rather than not at all. -/
theorem C7_single_active_winner :
    ∀ (players : List Player) (community : List Card) (i : Nat) (p : Player)
      (ev : Nat × List Nat),
      (players.enum).filter (fun ip => ip.2.is_active) = [(i, p)] →
      evaluate_hand p.hand community = some ev →
      determine_winner players community = some (some i, 1) :=
  fun _ _ _ _ _ hact hev => determine_winner_single hact hev

/-- C7 witness: a 4-handed fold-down to one active player. -/
theorem C7_witness :
    determine_winner
      [⟨900, [(4, "hearts"), (9, "clubs")], 100, false⟩,
       ⟨1000, [(2, "hearts"), (7, "diamonds")], 0, true⟩]
      [(3, "clubs"), (5, "spades"), (10, "hearts"), (12, "diamonds"), (13, "clubs")]
      = some (some 1, 1) :=
  C7_single_active_winner _ _ 1 ⟨1000, [(2, "hearts"), (7, "diamonds")], 0, true⟩
    (1, [13, 12, 10, 7, 5, 3, 2]) (by decide) (by decide)

/-- C8 counterexample: `play_pre_flop` does NOT reset the players — after
running it on a state whose second player folded in the previous round
(with a stale bet of 40), that player is still inactive during and after
the pre-flop betting pass and keeps `current_bet = 40`. -/
theorem C8_counterexample :
    (play_pre_flop c8_fresh allCheck c8_start).map
      (fun s => (s.players.map Player.is_active, s.players.map Player.current_bet))
      = some ([true, false], [0, 40]) ∧
    (play_pre_flop c8_fresh allCheck c8_start).map
      (fun s => (s.players.map Player.is_active, s.players.map Player.current_bet))
      ≠ some ([true, true], [0, 0]) :=
  ⟨by decide, by decide⟩

/-- C8 amended: `play_pre_flop` resets deck/community/pot, rotates the
dealer by exactly one and deals, but does NOT reset any `PlayerState`: a
player inactive on entry is still inactive after the whole pre-flop step
(regardless of the decisions); the (hole cards, currentBet, active) reset
is performed by the SEPARATE next-round step
(`reset_game_for_next_round` calling `reset_for_next_round`), after which
every player is active. -/
theorem C8_pre_flop_no_player_reset :
    ∀ (fresh : List Card) (decide : Nat → Decision × Nat) (st st' : GameState),
      play_pre_flop fresh decide st = some st' →
      st'.dealer_position = (st.dealer_position + 1) % st.num_players ∧
      st'.community = [] ∧
      (∀ j, (st.players.get? j).map Player.is_active = some false →
        (st'.players.get? j).map Player.is_active = some false) ∧
      (∀ (fresh2 : List Card) (j : Nat), j < st'.players.length →
        ((reset_game_for_next_round fresh2 st').players.get? j).map Player.is_active
          = some true) := by
  intro fresh decide st st' h
  cases hdp : deal_players st.players fresh with
  | none => simp [play_pre_flop, hdp] at h
  | some pr =>
    obtain ⟨dealt, deck1⟩ := pr
    simp only [play_pre_flop, hdp, Option.some.injEq] at h
    subst h
    refine ⟨rfl, rfl, ?_, ?_⟩
    · intro j hj
      have hfields := deal_players_fields st.players fresh dealt deck1 hdp
      have hdj : (dealt.get? j).map Player.is_active = some false := by
        have hmap : (dealt.map Player.is_active).get? j
            = (st.players.map Player.is_active).get? j := by rw [hfields.1]
        rw [List.get?_map, List.get?_map] at hmap
        rw [hmap]
        exact hj
      have hbp := betting_pass_inactive dealt decide 0 0 0 j hdj
      show (((betting_pass decide 0 0 0 dealt).1).get? j).map Player.is_active = some false
      rw [hbp]
      exact hdj
    · intro fresh2 j hj
      show (((betting_pass decide 0 0 0 dealt).1.map reset_for_next_round).get? j).map
        Player.is_active = some true
      rw [List.get?_map]
      cases hg : (betting_pass decide 0 0 0 dealt).1.get? j with
      | none =>
        have := List.get?_eq_none.mp hg
        exact absurd hj (by simp at this ⊢; exact this)
      | some q => simp [reset_for_next_round]

/-- C8 witness: the amended statement at the concrete fixture round. -/
theorem C8_witness :
    c8_after.dealer_position = (c8_start.dealer_position + 1) % c8_start.num_players ∧
    c8_after.community = [] ∧
    (∀ j, (c8_start.players.get? j).map Player.is_active = some false →
      (c8_after.players.get? j).map Player.is_active = some false) ∧
    (∀ (fresh2 : List Card) (j : Nat), j < c8_after.players.length →
      ((reset_game_for_next_round fresh2 c8_after).players.get? j).map Player.is_active
        = some true) :=
  C8_pre_flop_no_player_reset c8_fresh allCheck c8_start c8_after (by decide)

/-- C9: the decision boundary always yields one of the four actions: the
sanitizer returns the keyword of the leftmost word-bounded occurrence of
fold/check/bet/raise in the lowercased text (the regex uses word boundaries,
so e.g. `betting` does not count as `bet`), returns `check` when no keyword
occurs in a successfully received response, and the retry loop returns
`fold` immediately on a transport error and `fold` when the attempt budget
is exhausted. -/
theorem C9_decision_boundary :
    (∀ s : List Char, sanitize_decision s = "fold".toList ∨
      sanitize_decision s = "check".toList ∨ sanitize_decision s = "bet".toList ∨
      sanitize_decision s = "raise".toList) ∧
    (∀ (s : List Char) (i : Nat) (k : List Char),
      matchKeywordAt (s.map Char.toLower) i = some k →
      (∀ j, j < i → matchKeywordAt (s.map Char.toLower) j = none) →
      sanitize_decision s = k) ∧
    (∀ s : List Char, (∀ j, matchKeywordAt (s.map Char.toLower) j = none) →
      sanitize_decision s = "check".toList) ∧
    (∀ rest, get_ai_decision (none :: rest) = "fold".toList) ∧
    get_ai_decision [] = "fold".toList ∧
    (∀ attempts, get_ai_decision attempts = "fold".toList ∨
      get_ai_decision attempts = "check".toList ∨
      get_ai_decision attempts = "bet".toList ∨
      get_ai_decision attempts = "raise".toList) :=
  ⟨sanitize_decision_cases,
   fun _ _ _ hm hf => sanitize_decision_of_first hm hf,
   fun _ hall => sanitize_decision_of_none hall,
   fun _ => rfl, rfl, get_ai_decision_cases⟩

/-- C9 witness: the leftmost word-bounded keyword of `Go RAISE now` is
`raise` (position 3, nothing matches earlier), and an erroring first
attempt yields `fold`. -/
theorem C9_witness :
    sanitize_decision "Go RAISE now".toList = "raise".toList ∧
    get_ai_decision [none, some "bet".toList] = "fold".toList :=
  ⟨C9_decision_boundary.2.1 _ 3 _ (by decide) (by decide),
   C9_decision_boundary.2.2.2.1 _⟩

/-- C10: on 2 hole cards plus 0/3/4/5 distinct valid community cards,
`evaluate_hand` is total: every `[0]` selection and `max` runs on a
non-empty collection in every reachable branch, so the IndexError /
max-of-empty error branches are unreachable. -/
theorem C10_evaluate_total :
    ∀ (hand community : List Card),
      hand.length = 2 →
      (community.length = 0 ∨ community.length = 3 ∨ community.length = 4 ∨
        community.length = 5) →
      (hand ++ community).Nodup →
      (∀ c ∈ hand ++ community, 2 ≤ c.1 ∧ c.1 ≤ 14 ∧ c.2 ∈ suitUniverse) →
      (evaluate_hand hand community).isSome = true := by
  intro hand community hh hc _ _
  unfold evaluate_hand
  apply evaluateCards_isSome_of_sizes
  rw [List.length_append, hh]
  rcases hc with h | h | h | h <;> simp [h]

/-- C10 witness: totality at a concrete 2-card input. -/
theorem C10_witness :
    (evaluate_hand [(2, "hearts"), (3, "clubs")] []).isSome = true :=
  C10_evaluate_total _ _ (by decide) (by decide) (by decide) (by decide)

end AIPoker
